import Mathlib

/-!
Verification of the chia consensus crate excerpt: the `ConsensusFlags` bitmask
and its conversions to/from the evaluator's `ClvmFlags` (`crates/chia-consensus/src/flags.rs`),
the heap policy `make_allocator` (`crates/chia-consensus/src/allocator.rs`),
and the dual block-generator engine contract exercised by
`crates/chia-consensus/fuzz/fuzz_targets/run-generator.rs`.

Flag values are embedded as natural numbers below `2^32` (the Rust `u32` carrier
of the `bitflags` types); `contains`, `union` and `insert` of the `bitflags`
crate are embedded as `containsBit` and `|||`.
-/

namespace ChiaConsensus

/-- bitflags `a.contains(b)`: every bit of `b` is set in `a`. -/
def containsBit (a f : Nat) : Bool := a &&& f == f

namespace ClvmFlags

/-- clvmr evaluator flag, bit value pinned by the repository test
`clvm_flags_bits_match_consensus_flags`. -/
def CANONICAL_INTS : Nat := 0x0001

/-- clvmr evaluator flag, bit value pinned by the repository test
`clvm_flags_bits_match_consensus_flags`. -/
def NO_UNKNOWN_OPS : Nat := 0x0002

/-- clvmr evaluator flag, bit value pinned by the repository test
`clvm_flags_bits_match_consensus_flags`. -/
def LIMIT_HEAP : Nat := 0x0004

/-- clvmr evaluator flag, bit value pinned by the repository test
`clvm_flags_bits_match_consensus_flags`. -/
def ENABLE_KECCAK_OPS_OUTSIDE_GUARD : Nat := 0x0100

/-- clvmr evaluator flag, bit value pinned by the repository test
`clvm_flags_bits_match_consensus_flags`. -/
def DISABLE_OP : Nat := 0x0200

/-- clvmr evaluator flag, bit value pinned by the repository test
`clvm_flags_bits_match_consensus_flags`. -/
def ENABLE_SHA256_TREE : Nat := 0x0400

/-- clvmr evaluator flag, bit value pinned by the repository test
`clvm_flags_bits_match_consensus_flags`. -/
def ENABLE_SECP_OPS : Nat := 0x0800

end ClvmFlags

/-- Modelled from the spec: clvmr's `MEMPOOL_MODE` constant ("the evaluator's
own mempool-flag mapping", spec section 4.1) lives in the external evaluator crate, not
in this repository.  Its exact bit content is not used by any theorem below
except through `ConsensusFlags.from_clvm_flags`. -/
def CLVM_MEMPOOL_MODE : Nat :=
  ClvmFlags.NO_UNKNOWN_OPS ||| ClvmFlags.LIMIT_HEAP ||| ClvmFlags.CANONICAL_INTS

namespace ConsensusFlags

/-- `ConsensusFlags::CANONICAL_INTS` (flags.rs). -/
def CANONICAL_INTS : Nat := 0x0001

/-- `ConsensusFlags::NO_UNKNOWN_OPS` (flags.rs). -/
def NO_UNKNOWN_OPS : Nat := 0x0002

/-- `ConsensusFlags::LIMIT_HEAP` (flags.rs). -/
def LIMIT_HEAP : Nat := 0x0004

/-- `ConsensusFlags::ENABLE_KECCAK_OPS_OUTSIDE_GUARD` (flags.rs). -/
def ENABLE_KECCAK_OPS_OUTSIDE_GUARD : Nat := 0x0100

/-- `ConsensusFlags::DISABLE_OP` (flags.rs). -/
def DISABLE_OP : Nat := 0x0200

/-- `ConsensusFlags::ENABLE_SHA256_TREE` (flags.rs). -/
def ENABLE_SHA256_TREE : Nat := 0x0400

/-- `ConsensusFlags::ENABLE_SECP_OPS` (flags.rs). -/
def ENABLE_SECP_OPS : Nat := 0x0800

/-- `ConsensusFlags::DONT_VALIDATE_SIGNATURE` (flags.rs). -/
def DONT_VALIDATE_SIGNATURE : Nat := 0x10000

/-- `ConsensusFlags::NO_UNKNOWN_CONDS` (flags.rs). -/
def NO_UNKNOWN_CONDS : Nat := 0x20000

/-- `ConsensusFlags::COMPUTE_FINGERPRINT` (flags.rs). -/
def COMPUTE_FINGERPRINT : Nat := 0x40000

/-- `ConsensusFlags::STRICT_ARGS_COUNT` (flags.rs). -/
def STRICT_ARGS_COUNT : Nat := 0x80000

/-- `ConsensusFlags::COST_CONDITIONS` (flags.rs). -/
def COST_CONDITIONS : Nat := 0x800000

/-- `ConsensusFlags::SIMPLE_GENERATOR` (flags.rs). -/
def SIMPLE_GENERATOR : Nat := 0x1000000

/-- bitflags `ConsensusFlags::empty()`. -/
def empty : Nat := 0

/-- `ConsensusFlags::from_clvm_flags` (flags.rs): for each clvmr flag, check
whether it is set with `contains`, then set the corresponding consensus flag. -/
def from_clvm_flags (clvm : Nat) : Nat :=
  let out := empty
  let out := if containsBit clvm ClvmFlags.CANONICAL_INTS then out ||| CANONICAL_INTS else out
  let out := if containsBit clvm ClvmFlags.NO_UNKNOWN_OPS then out ||| NO_UNKNOWN_OPS else out
  let out := if containsBit clvm ClvmFlags.LIMIT_HEAP then out ||| LIMIT_HEAP else out
  let out := if containsBit clvm ClvmFlags.ENABLE_KECCAK_OPS_OUTSIDE_GUARD then out ||| ENABLE_KECCAK_OPS_OUTSIDE_GUARD else out
  let out := if containsBit clvm ClvmFlags.DISABLE_OP then out ||| DISABLE_OP else out
  let out := if containsBit clvm ClvmFlags.ENABLE_SHA256_TREE then out ||| ENABLE_SHA256_TREE else out
  let out := if containsBit clvm ClvmFlags.ENABLE_SECP_OPS then out ||| ENABLE_SECP_OPS else out
  out

/-- `ConsensusFlags::to_clvm_flags` (flags.rs): map each shared flag to its
clvmr counterpart; consensus-only flags are ignored. -/
def to_clvm_flags (self : Nat) : Nat :=
  let out := 0
  let out := if containsBit self CANONICAL_INTS then out ||| ClvmFlags.CANONICAL_INTS else out
  let out := if containsBit self NO_UNKNOWN_OPS then out ||| ClvmFlags.NO_UNKNOWN_OPS else out
  let out := if containsBit self LIMIT_HEAP then out ||| ClvmFlags.LIMIT_HEAP else out
  let out := if containsBit self ENABLE_KECCAK_OPS_OUTSIDE_GUARD then out ||| ClvmFlags.ENABLE_KECCAK_OPS_OUTSIDE_GUARD else out
  let out := if containsBit self DISABLE_OP then out ||| ClvmFlags.DISABLE_OP else out
  let out := if containsBit self ENABLE_SHA256_TREE then out ||| ClvmFlags.ENABLE_SHA256_TREE else out
  let out := if containsBit self ENABLE_SECP_OPS then out ||| ClvmFlags.ENABLE_SECP_OPS else out
  out

end ConsensusFlags

/-- `MEMPOOL_MODE` (flags.rs): clvmr `MEMPOOL_MODE` plus consensus stricter checking. -/
def MEMPOOL_MODE : Nat :=
  ConsensusFlags.from_clvm_flags CLVM_MEMPOOL_MODE
    ||| ConsensusFlags.NO_UNKNOWN_CONDS
    ||| ConsensusFlags.STRICT_ARGS_COUNT

/-- The seven evaluator (clvmr) flags, in declaration order. -/
def clvmNamedFlags : List Nat :=
  [ClvmFlags.CANONICAL_INTS, ClvmFlags.NO_UNKNOWN_OPS, ClvmFlags.LIMIT_HEAP,
   ClvmFlags.ENABLE_KECCAK_OPS_OUTSIDE_GUARD, ClvmFlags.DISABLE_OP,
   ClvmFlags.ENABLE_SHA256_TREE, ClvmFlags.ENABLE_SECP_OPS]

/-- The seven evaluator-mirrored consensus flags, in declaration order. -/
def sharedConsensusFlags : List Nat :=
  [ConsensusFlags.CANONICAL_INTS, ConsensusFlags.NO_UNKNOWN_OPS, ConsensusFlags.LIMIT_HEAP,
   ConsensusFlags.ENABLE_KECCAK_OPS_OUTSIDE_GUARD, ConsensusFlags.DISABLE_OP,
   ConsensusFlags.ENABLE_SHA256_TREE, ConsensusFlags.ENABLE_SECP_OPS]

/-- The six consensus-only flags, in declaration order. -/
def consensusOnlyFlags : List Nat :=
  [ConsensusFlags.DONT_VALIDATE_SIGNATURE, ConsensusFlags.NO_UNKNOWN_CONDS,
   ConsensusFlags.COMPUTE_FINGERPRINT, ConsensusFlags.STRICT_ARGS_COUNT,
   ConsensusFlags.COST_CONDITIONS, ConsensusFlags.SIMPLE_GENERATOR]

/-- All thirteen named `ConsensusFlags`, in declaration order. -/
def namedConsensusFlags : List Nat := sharedConsensusFlags ++ consensusOnlyFlags

/-- Union of the seven evaluator flag bits (the shared bit region). -/
def clvmNamedMask : Nat :=
  ClvmFlags.CANONICAL_INTS ||| ClvmFlags.NO_UNKNOWN_OPS ||| ClvmFlags.LIMIT_HEAP |||
  ClvmFlags.ENABLE_KECCAK_OPS_OUTSIDE_GUARD ||| ClvmFlags.DISABLE_OP |||
  ClvmFlags.ENABLE_SHA256_TREE ||| ClvmFlags.ENABLE_SECP_OPS

/-- Union of the seven evaluator-mirrored consensus flag bits. -/
def sharedConsensusMask : Nat :=
  ConsensusFlags.CANONICAL_INTS ||| ConsensusFlags.NO_UNKNOWN_OPS ||| ConsensusFlags.LIMIT_HEAP |||
  ConsensusFlags.ENABLE_KECCAK_OPS_OUTSIDE_GUARD ||| ConsensusFlags.DISABLE_OP |||
  ConsensusFlags.ENABLE_SHA256_TREE ||| ConsensusFlags.ENABLE_SECP_OPS

/-- clvmr `Allocator`, abstracted to its observable heap ceiling (the argument
of `Allocator::new_limited`); the arena internals are external to this crate. -/
structure Allocator where
  heapLimit : Nat
deriving DecidableEq

/-- clvmr `Allocator::new_limited(limit)`: a heap capped at `limit` bytes. -/
def Allocator.new_limited (limit : Nat) : Allocator := ⟨limit⟩

/-- `u32::MAX`, the maximum addressable size for the arena's `u32` index type. -/
def U32_MAX : Nat := 4294967295

/-- `make_allocator` (allocator.rs): heap-size limit chosen from the flags. -/
def make_allocator (flags : Nat) : Allocator :=
  if containsBit flags ConsensusFlags.LIMIT_HEAP then Allocator.new_limited 500000000
  else Allocator.new_limited U32_MAX

/-!
Dual block-generator engine model.

Modelled from the spec: `run_block_generator` (v1) and `run_block_generator2`
(v2) live in `crates/chia-consensus/src/run_block_generator.rs`, which is not
part of this excerpt; only their differential-testing caller
(`fuzz/fuzz_targets/run-generator.rs`) is.  The model below follows spec
section 4.5: a block generator is abstracted as a list of spends, each with an
evaluator cost, a possible evaluator-level failure, and a list of decoded
conditions carrying a cost and accounting contributions.  v1 evaluates every
spend's program fully (paying an extra tree-building overhead, which is why
"v2's interleaved accounting legitimately costs less"), then parses conditions
from the complete tree; v2 parses each spend's conditions immediately after
that spend's program finishes.  Both charge cost incrementally and abort with
`CostExceeded` as soon as the running cost crosses the budget (spec sections 4.3-4.5).
-/

/-- Modelled from the spec: a decoded condition with its cost contribution and
its accounting contributions (spec section 3, "Condition"). -/
structure Cond where
  cost : Nat
  reserveFee : Nat
  removal : Nat
  addition : Nat
  valid : Bool
deriving DecidableEq

/-- Modelled from the spec: one coin spend of the block generator, abstracted
to its evaluator cost, whether its program fails in the evaluator, and its
decoded condition list. -/
structure Spend where
  evalCost : Nat
  evalFails : Bool
  conds : List Cond
deriving DecidableEq

/-- Modelled from the spec: a whole block-generator program, abstracted to its
spends plus the extra execution cost v1 pays for building the complete output
tree (spec section 4.5: v2's interleaved accounting "legitimately costs less"). -/
structure GeneratorInput where
  romOverhead : Nat
  spends : List Spend
deriving DecidableEq

/-- Modelled from the spec: the error classification relevant to the
cross-engine contract (spec section 7): cost-budget exhaustion, an evaluator-level
failure, or a condition-parsing rule violation. -/
inductive GenError where
  | costExceeded
  | evalFailure
  | invalidCondition
deriving DecidableEq

/-- The externally-visible accounting fields of `SpendBundleConditions`
compared by the fuzz target (run-generator.rs). -/
structure SpendBundleConditions where
  cost : Nat
  execution_cost : Nat
  condition_cost : Nat
  reserve_fee : Nat
  removal_amount : Nat
  addition_amount : Nat
deriving DecidableEq

/-- Total condition cost of one condition list. -/
def condListCost : List Cond → Nat
  | [] => 0
  | c :: cs => c.cost + condListCost cs

/-- Total reserve-fee contribution of one condition list. -/
def condListReserve : List Cond → Nat
  | [] => 0
  | c :: cs => c.reserveFee + condListReserve cs

/-- Total removal-amount contribution of one condition list. -/
def condListRemoval : List Cond → Nat
  | [] => 0
  | c :: cs => c.removal + condListRemoval cs

/-- Total addition-amount contribution of one condition list. -/
def condListAddition : List Cond → Nat
  | [] => 0
  | c :: cs => c.addition + condListAddition cs

/-- Total evaluator cost of a spend list. -/
def evalCostTotal : List Spend → Nat
  | [] => 0
  | s :: ss => s.evalCost + evalCostTotal ss

/-- Total condition cost of a spend list. -/
def condCostTotal : List Spend → Nat
  | [] => 0
  | s :: ss => condListCost s.conds + condCostTotal ss

/-- Total reserve fee of a spend list. -/
def reserveTotal : List Spend → Nat
  | [] => 0
  | s :: ss => condListReserve s.conds + reserveTotal ss

/-- Total removal amount of a spend list. -/
def removalTotal : List Spend → Nat
  | [] => 0
  | s :: ss => condListRemoval s.conds + removalTotal ss

/-- Total addition amount of a spend list. -/
def additionTotal : List Spend → Nat
  | [] => 0
  | s :: ss => condListAddition s.conds + additionTotal ss

/-- The complete condition tree: every spend's conditions, in spend order
(what v1 parses after evaluating the whole program). -/
def allConds : List Spend → List Cond
  | [] => []
  | s :: ss => s.conds ++ allConds ss

/-- v1's execution cost: whole-program evaluation including the output
tree-building overhead. -/
def execCostV1 (g : GeneratorInput) : Nat := g.romOverhead + evalCostTotal g.spends

/-- v2's execution cost: the spends' program costs alone. -/
def execCostV2 (g : GeneratorInput) : Nat := evalCostTotal g.spends

/-- The `SpendBundleConditions` v1 returns on success. -/
def resultV1 (g : GeneratorInput) : SpendBundleConditions :=
  { cost := execCostV1 g + condCostTotal g.spends
    execution_cost := execCostV1 g
    condition_cost := condCostTotal g.spends
    reserve_fee := reserveTotal g.spends
    removal_amount := removalTotal g.spends
    addition_amount := additionTotal g.spends }

/-- The `SpendBundleConditions` v2 returns on success. -/
def resultV2 (g : GeneratorInput) : SpendBundleConditions :=
  { cost := execCostV2 g + condCostTotal g.spends
    execution_cost := execCostV2 g
    condition_cost := condCostTotal g.spends
    reserve_fee := reserveTotal g.spends
    removal_amount := removalTotal g.spends
    addition_amount := additionTotal g.spends }

/-- Decode a condition list, charging each condition's cost incrementally
against the budget (spec section 4.3): abort with `CostExceeded` the moment the
running cost crosses `maxCost`, and with `invalidCondition` on a rule
violation.  Returns the updated running cost. -/
def parseConds (maxCost : Nat) : Nat → List Cond → Except GenError Nat
  | acc, [] => .ok acc
  | acc, c :: cs =>
    let acc2 := acc + c.cost
    if maxCost < acc2 then .error .costExceeded
    else if c.valid then parseConds maxCost acc2 cs
    else .error .invalidCondition

/-- Evaluate every spend's program (v1's first phase), charging evaluator cost
incrementally; an evaluator-level failure aborts the whole call.  Returns the
updated running cost. -/
def evalSpends (maxCost : Nat) : Nat → List Spend → Except GenError Nat
  | acc, [] => .ok acc
  | acc, s :: ss =>
    let acc2 := acc + s.evalCost
    if maxCost < acc2 then .error .costExceeded
    else if s.evalFails then .error .evalFailure
    else evalSpends maxCost acc2 ss

/-- Modelled from the spec: `run_block_generator` (v1, spec section 4.5): charge the
tree-building overhead, evaluate every spend's program fully, then parse
conditions from the complete tree. -/
def run_block_generator (g : GeneratorInput) (maxCost : Nat) : Except GenError SpendBundleConditions :=
  if maxCost < g.romOverhead then .error .costExceeded
  else
    match evalSpends maxCost g.romOverhead g.spends with
    | .error e => .error e
    | .ok exec =>
      match parseConds maxCost exec (allConds g.spends) with
      | .error e => .error e
      | .ok _ => .ok (resultV1 g)

/-- v2's per-spend step: run one spend's program, then immediately parse its
conditions (spec section 4.5's interleaving).  Returns the updated running cost. -/
def runSpendV2 (maxCost acc : Nat) (s : Spend) : Except GenError Nat :=
  let acc2 := acc + s.evalCost
  if maxCost < acc2 then .error .costExceeded
  else if s.evalFails then .error .evalFailure
  else parseConds maxCost acc2 s.conds

/-- v2's main loop over the spends. -/
def runSpendsV2 (maxCost : Nat) : Nat → List Spend → Except GenError Nat
  | acc, [] => .ok acc
  | acc, s :: ss =>
    match runSpendV2 maxCost acc s with
    | .error e => .error e
    | .ok acc2 => runSpendsV2 maxCost acc2 ss

/-- Modelled from the spec: `run_block_generator2` (v2, spec section 4.5): interleave
evaluation and condition parsing, spend by spend, without v1's tree-building
overhead. -/
def run_block_generator2 (g : GeneratorInput) (maxCost : Nat) : Except GenError SpendBundleConditions :=
  match runSpendsV2 maxCost 0 g.spends with
  | .error e => .error e
  | .ok _ => .ok (resultV2 g)

/-- A spend with no evaluator failure and only rule-abiding conditions. -/
def Spend.clean (s : Spend) : Bool := !s.evalFails && s.conds.all (·.valid)

/-- Total cost v2 charges for a spend list (evaluator plus condition cost). -/
def spendTotalV2 : List Spend → Nat
  | [] => 0
  | s :: ss => s.evalCost + condListCost s.conds + spendTotalV2 ss

/-- A generator none of whose spends can fail for a non-cost reason. -/
def cleanGen (g : GeneratorInput) : Bool := g.spends.all Spend.clean

/-! ### Bit-level helper lemmas -/

theorem containsBit_two_pow (x k : Nat) : containsBit x (2^k) = x.testBit k := by
  unfold containsBit
  rw [Nat.and_two_pow]
  cases h : x.testBit k
  · simp [(Nat.two_pow_pos k).ne]
  · simp

theorem step_two_pow (x out k : Nat) :
    (if containsBit x (2^k) then out ||| 2^k else out) = out ||| (x &&& 2^k) := by
  rw [containsBit_two_pow, Nat.and_two_pow]
  cases h : x.testBit k
  · simp
  · simp

theorem and_lor_distrib (x a b : Nat) : x &&& (a ||| b) = (x &&& a) ||| (x &&& b) := by
  refine Nat.eq_of_testBit_eq fun i => ?_
  cases hx : x.testBit i <;> cases ha : a.testBit i <;> cases hb : b.testBit i <;>
    simp [Nat.testBit_land, Nat.testBit_lor, hx, ha, hb]

theorem lor_and_of_and_zero (a b m : Nat) (h : b &&& m = 0) : (a ||| b) &&& m = a &&& m := by
  refine Nat.eq_of_testBit_eq fun i => ?_
  have hb := congrArg (fun t => t.testBit i) h
  simp [Nat.testBit_land] at hb
  cases ha : a.testBit i <;> cases hb2 : b.testBit i <;> cases hm : m.testBit i <;>
    simp_all [Nat.testBit_land, Nat.testBit_lor]

theorem and_and_of_and_eq (a d m : Nat) (h : d &&& m = m) : (a &&& d) &&& m = a &&& m := by
  refine Nat.eq_of_testBit_eq fun i => ?_
  have hd := congrArg (fun t => t.testBit i) h
  simp [Nat.testBit_land] at hd
  cases ha : a.testBit i <;> cases hd2 : d.testBit i <;> cases hm : m.testBit i <;>
    simp_all [Nat.testBit_land]

theorem and_assoc_zero (x m f : Nat) (h : m &&& f = 0) : (x &&& m) &&& f = 0 := by
  rw [Nat.land_assoc, h, Nat.and_zero]

theorem containsBit_lor_right (a b f : Nat) (h : containsBit b f = true) :
    containsBit (a ||| b) f = true := by
  simp only [containsBit, beq_iff_eq] at h ⊢
  refine Nat.eq_of_testBit_eq fun i => ?_
  have hb := congrArg (fun t => t.testBit i) h
  simp [Nat.testBit_land] at hb
  cases ha : a.testBit i <;> cases hb2 : b.testBit i <;> cases hf : f.testBit i <;>
    simp_all [Nat.testBit_land, Nat.testBit_lor]

theorem containsBit_lor_left (a b f : Nat) (h : containsBit a f = true) :
    containsBit (a ||| b) f = true := by
  simp only [containsBit, beq_iff_eq] at h ⊢
  refine Nat.eq_of_testBit_eq fun i => ?_
  have ha := congrArg (fun t => t.testBit i) h
  simp [Nat.testBit_land] at ha
  cases ha2 : a.testBit i <;> cases hb : b.testBit i <;> cases hf : f.testBit i <;>
    simp_all [Nat.testBit_land, Nat.testBit_lor]

theorem containsBit_self (a : Nat) : containsBit a a = true := by
  simp only [containsBit, beq_iff_eq]
  refine Nat.eq_of_testBit_eq fun i => ?_
  cases h : a.testBit i <;> simp [Nat.testBit_land, h]

theorem step_1 (x out : Nat) : (if containsBit x 1 then out ||| 1 else out) = out ||| (x &&& 1) := by
  have h := step_two_pow x out 0
  rw [show (2:Nat)^0 = 1 from by norm_num] at h
  exact h

theorem step_2 (x out : Nat) : (if containsBit x 2 then out ||| 2 else out) = out ||| (x &&& 2) := by
  have h := step_two_pow x out 1
  rw [show (2:Nat)^1 = 2 from by norm_num] at h
  exact h

theorem step_4 (x out : Nat) : (if containsBit x 4 then out ||| 4 else out) = out ||| (x &&& 4) := by
  have h := step_two_pow x out 2
  rw [show (2:Nat)^2 = 4 from by norm_num] at h
  exact h

theorem step_256 (x out : Nat) : (if containsBit x 256 then out ||| 256 else out) = out ||| (x &&& 256) := by
  have h := step_two_pow x out 8
  rw [show (2:Nat)^8 = 256 from by norm_num] at h
  exact h

theorem step_512 (x out : Nat) : (if containsBit x 512 then out ||| 512 else out) = out ||| (x &&& 512) := by
  have h := step_two_pow x out 9
  rw [show (2:Nat)^9 = 512 from by norm_num] at h
  exact h

theorem step_1024 (x out : Nat) : (if containsBit x 1024 then out ||| 1024 else out) = out ||| (x &&& 1024) := by
  have h := step_two_pow x out 10
  rw [show (2:Nat)^10 = 1024 from by norm_num] at h
  exact h

theorem step_2048 (x out : Nat) : (if containsBit x 2048 then out ||| 2048 else out) = out ||| (x &&& 2048) := by
  have h := step_two_pow x out 11
  rw [show (2:Nat)^11 = 2048 from by norm_num] at h
  exact h

/-- `from_clvm_flags` keeps exactly the shared bit region of its input
(the bits of the seven named evaluator flags). -/
theorem from_clvm_flags_eq (x : Nat) :
    ConsensusFlags.from_clvm_flags x = x &&& clvmNamedMask := by
  simp only [ConsensusFlags.from_clvm_flags, ConsensusFlags.empty, clvmNamedMask,
    ConsensusFlags.CANONICAL_INTS, ConsensusFlags.NO_UNKNOWN_OPS, ConsensusFlags.LIMIT_HEAP,
    ConsensusFlags.ENABLE_KECCAK_OPS_OUTSIDE_GUARD, ConsensusFlags.DISABLE_OP,
    ConsensusFlags.ENABLE_SHA256_TREE, ConsensusFlags.ENABLE_SECP_OPS,
    ClvmFlags.CANONICAL_INTS, ClvmFlags.NO_UNKNOWN_OPS, ClvmFlags.LIMIT_HEAP,
    ClvmFlags.ENABLE_KECCAK_OPS_OUTSIDE_GUARD, ClvmFlags.DISABLE_OP,
    ClvmFlags.ENABLE_SHA256_TREE, ClvmFlags.ENABLE_SECP_OPS]
  simp only [step_1, step_2, step_4, step_256, step_512, step_1024, step_2048]
  simp only [and_lor_distrib, Nat.zero_or]

/-- `to_clvm_flags` keeps exactly the shared bit region of its input. -/
theorem to_clvm_flags_eq (x : Nat) :
    ConsensusFlags.to_clvm_flags x = x &&& clvmNamedMask := by
  simp only [ConsensusFlags.to_clvm_flags, clvmNamedMask,
    ConsensusFlags.CANONICAL_INTS, ConsensusFlags.NO_UNKNOWN_OPS, ConsensusFlags.LIMIT_HEAP,
    ConsensusFlags.ENABLE_KECCAK_OPS_OUTSIDE_GUARD, ConsensusFlags.DISABLE_OP,
    ConsensusFlags.ENABLE_SHA256_TREE, ConsensusFlags.ENABLE_SECP_OPS,
    ClvmFlags.CANONICAL_INTS, ClvmFlags.NO_UNKNOWN_OPS, ClvmFlags.LIMIT_HEAP,
    ClvmFlags.ENABLE_KECCAK_OPS_OUTSIDE_GUARD, ClvmFlags.DISABLE_OP,
    ClvmFlags.ENABLE_SHA256_TREE, ClvmFlags.ENABLE_SECP_OPS]
  simp only [step_1, step_2, step_4, step_256, step_512, step_1024, step_2048]
  simp only [and_lor_distrib, Nat.zero_or]

/-! ### Claims about the flag conversions, the named flag table and the heap policy -/

/-- Claim C3: for every evaluator flag value, converting with `from_clvm_flags`
and back with `to_clvm_flags` is the identity on the named evaluator flags
(the round trip returns exactly the input's named-flag bits, hence is the
identity whenever the input consists of named flags), and `from_clvm_flags`
never sets any consensus-only flag in its output. -/
theorem from_then_to_clvm_flags_roundtrip (x : Nat) (hx : x < 2^32) :
    ConsensusFlags.to_clvm_flags (ConsensusFlags.from_clvm_flags x) = x &&& clvmNamedMask ∧
    (x &&& clvmNamedMask = x →
      ConsensusFlags.to_clvm_flags (ConsensusFlags.from_clvm_flags x) = x) ∧
    (consensusOnlyFlags.all fun f => ConsensusFlags.from_clvm_flags x &&& f == 0) = true := by
  have h1 : ConsensusFlags.to_clvm_flags (ConsensusFlags.from_clvm_flags x) = x &&& clvmNamedMask := by
    rw [from_clvm_flags_eq, to_clvm_flags_eq, Nat.land_assoc,
      show clvmNamedMask &&& clvmNamedMask = clvmNamedMask from by decide]
  refine ⟨h1, fun hid => by rw [h1, hid], ?_⟩
  simp only [consensusOnlyFlags, List.all_cons, List.all_nil, Bool.and_true,
    Bool.and_eq_true, beq_iff_eq]
  rw [from_clvm_flags_eq]
  refine ⟨?_, ?_, ?_, ?_, ?_, ?_⟩ <;> exact and_assoc_zero x _ _ (by decide)

theorem from_then_to_clvm_flags_roundtrip_witness :
    (0xF07 : Nat) < 2^32 ∧
    ConsensusFlags.to_clvm_flags (ConsensusFlags.from_clvm_flags 0xF07) = 0xF07 &&& clvmNamedMask := by
  refine ⟨by norm_num, (from_then_to_clvm_flags_roundtrip 0xF07 (by norm_num)).1⟩

/-- Claim C4: `to_clvm_flags` silently drops all consensus-only flags: its
result equals `to_clvm_flags` of the input restricted to the shared
(evaluator-mirrored) flags, and setting or clearing any consensus-only flag
does not change the result, so no consensus-only bit ever leaks into the
returned evaluator flag value. -/
theorem to_clvm_flags_drops_consensus_only (x : Nat) (hx : x < 2^32) :
    ConsensusFlags.to_clvm_flags x = ConsensusFlags.to_clvm_flags (x &&& sharedConsensusMask) ∧
    (consensusOnlyFlags.all fun f =>
      (ConsensusFlags.to_clvm_flags (x ||| f) == ConsensusFlags.to_clvm_flags x) &&
      (ConsensusFlags.to_clvm_flags (x &&& (U32_MAX ^^^ f)) == ConsensusFlags.to_clvm_flags x)) = true := by
  constructor
  · rw [to_clvm_flags_eq, to_clvm_flags_eq, Nat.land_assoc,
      show sharedConsensusMask &&& clvmNamedMask = clvmNamedMask from by decide]
  · simp only [consensusOnlyFlags, List.all_cons, List.all_nil, Bool.and_true,
      Bool.and_eq_true, beq_iff_eq]
    refine ⟨⟨?_, ?_⟩, ⟨?_, ?_⟩, ⟨?_, ?_⟩, ⟨?_, ?_⟩, ⟨?_, ?_⟩, ⟨?_, ?_⟩⟩ <;>
      rw [to_clvm_flags_eq, to_clvm_flags_eq]
    · exact lor_and_of_and_zero x _ _ (by decide)
    · exact and_and_of_and_eq x _ _ (by decide)
    · exact lor_and_of_and_zero x _ _ (by decide)
    · exact and_and_of_and_eq x _ _ (by decide)
    · exact lor_and_of_and_zero x _ _ (by decide)
    · exact and_and_of_and_eq x _ _ (by decide)
    · exact lor_and_of_and_zero x _ _ (by decide)
    · exact and_and_of_and_eq x _ _ (by decide)
    · exact lor_and_of_and_zero x _ _ (by decide)
    · exact and_and_of_and_eq x _ _ (by decide)
    · exact lor_and_of_and_zero x _ _ (by decide)
    · exact and_and_of_and_eq x _ _ (by decide)

theorem to_clvm_flags_drops_consensus_only_witness :
    (0x12345 : Nat) < 2^32 ∧
    ConsensusFlags.to_clvm_flags 0x12345 =
      ConsensusFlags.to_clvm_flags (0x12345 &&& sharedConsensusMask) := by
  refine ⟨by norm_num, (to_clvm_flags_drops_consensus_only 0x12345 (by norm_num)).1⟩

/-- Claim C10: `from_clvm_flags` produces only named shared flags: bits of its
input outside the seven named evaluator flags are discarded, and its result is
always a subset of the union of the seven evaluator-mirrored consensus flags. -/
theorem from_clvm_flags_only_named (x : Nat) (hx : x < 2^32) :
    ConsensusFlags.from_clvm_flags x = ConsensusFlags.from_clvm_flags (x &&& clvmNamedMask) ∧
    ConsensusFlags.from_clvm_flags x &&& sharedConsensusMask = ConsensusFlags.from_clvm_flags x := by
  constructor
  · rw [from_clvm_flags_eq, from_clvm_flags_eq, Nat.land_assoc,
      show clvmNamedMask &&& clvmNamedMask = clvmNamedMask from by decide]
  · rw [from_clvm_flags_eq, Nat.land_assoc,
      show clvmNamedMask &&& sharedConsensusMask = clvmNamedMask from by decide]

theorem from_clvm_flags_only_named_witness :
    (0xFFFFFFFF : Nat) < 2^32 ∧
    ConsensusFlags.from_clvm_flags 0xFFFFFFFF =
      ConsensusFlags.from_clvm_flags (0xFFFFFFFF &&& clvmNamedMask) := by
  refine ⟨by norm_num, (from_clvm_flags_only_named 0xFFFFFFFF (by norm_num)).1⟩

/-- Claim C5: no two named flags in the combined `ConsensusFlags` set (seven
evaluator-mirrored plus six consensus-only) share a bit position: all thirteen
are distinct and every pair of them has bitwise AND zero. -/
theorem no_overlapping_bits :
    namedConsensusFlags.Nodup ∧
    List.Pairwise (fun a b => a &&& b = 0) namedConsensusFlags := by
  constructor
  · decide
  · decide

/-- Claim C6: every evaluator (`ClvmFlags`) flag has a same-named counterpart
in `ConsensusFlags` with an identical bit position, over the whole evaluator
flag space, with the documented values. -/
theorem clvm_flags_bits_match_consensus_flags :
    ClvmFlags.CANONICAL_INTS = ConsensusFlags.CANONICAL_INTS ∧ ClvmFlags.CANONICAL_INTS = 0x0001 ∧
    ClvmFlags.NO_UNKNOWN_OPS = ConsensusFlags.NO_UNKNOWN_OPS ∧ ClvmFlags.NO_UNKNOWN_OPS = 0x0002 ∧
    ClvmFlags.LIMIT_HEAP = ConsensusFlags.LIMIT_HEAP ∧ ClvmFlags.LIMIT_HEAP = 0x0004 ∧
    ClvmFlags.ENABLE_KECCAK_OPS_OUTSIDE_GUARD = ConsensusFlags.ENABLE_KECCAK_OPS_OUTSIDE_GUARD ∧
    ClvmFlags.ENABLE_KECCAK_OPS_OUTSIDE_GUARD = 0x0100 ∧
    ClvmFlags.DISABLE_OP = ConsensusFlags.DISABLE_OP ∧ ClvmFlags.DISABLE_OP = 0x0200 ∧
    ClvmFlags.ENABLE_SHA256_TREE = ConsensusFlags.ENABLE_SHA256_TREE ∧
    ClvmFlags.ENABLE_SHA256_TREE = 0x0400 ∧
    ClvmFlags.ENABLE_SECP_OPS = ConsensusFlags.ENABLE_SECP_OPS ∧
    ClvmFlags.ENABLE_SECP_OPS = 0x0800 := by
  decide

/-- Claim C7: `MEMPOOL_MODE` is exactly the union of
`from_clvm_flags CLVM_MEMPOOL_MODE`, `NO_UNKNOWN_CONDS` and
`STRICT_ARGS_COUNT`; in particular it contains both `NO_UNKNOWN_CONDS` and
`STRICT_ARGS_COUNT`, and would do so for any value of the evaluator's own
mempool constant. -/
theorem mempool_mode_always_strict :
    MEMPOOL_MODE = ConsensusFlags.from_clvm_flags CLVM_MEMPOOL_MODE |||
      ConsensusFlags.NO_UNKNOWN_CONDS ||| ConsensusFlags.STRICT_ARGS_COUNT ∧
    containsBit MEMPOOL_MODE ConsensusFlags.NO_UNKNOWN_CONDS = true ∧
    containsBit MEMPOOL_MODE ConsensusFlags.STRICT_ARGS_COUNT = true ∧
    (∀ m : Nat, containsBit (ConsensusFlags.from_clvm_flags m |||
        ConsensusFlags.NO_UNKNOWN_CONDS ||| ConsensusFlags.STRICT_ARGS_COUNT)
        ConsensusFlags.NO_UNKNOWN_CONDS = true) ∧
    (∀ m : Nat, containsBit (ConsensusFlags.from_clvm_flags m |||
        ConsensusFlags.NO_UNKNOWN_CONDS ||| ConsensusFlags.STRICT_ARGS_COUNT)
        ConsensusFlags.STRICT_ARGS_COUNT = true) := by
  refine ⟨rfl, by decide, by decide, ?_, ?_⟩
  · intro m
    exact containsBit_lor_left _ _ _ (containsBit_lor_right _ _ _ (containsBit_self _))
  · intro m
    exact containsBit_lor_right _ _ _ (containsBit_self _)

/-- Claim C8: `make_allocator` returns a heap capped at 500,000,000 bytes when
`LIMIT_HEAP` is set and a heap capped at `u32::MAX` otherwise, and the choice
depends only on whether the flags contain `LIMIT_HEAP`. -/
theorem make_allocator_heap_policy (flags : Nat) :
    (containsBit flags ConsensusFlags.LIMIT_HEAP = true →
      make_allocator flags = Allocator.new_limited 500000000) ∧
    (containsBit flags ConsensusFlags.LIMIT_HEAP = false →
      make_allocator flags = Allocator.new_limited U32_MAX) ∧
    ∀ flags2 : Nat,
      containsBit flags ConsensusFlags.LIMIT_HEAP = containsBit flags2 ConsensusFlags.LIMIT_HEAP →
      make_allocator flags = make_allocator flags2 := by
  refine ⟨fun h => by simp [make_allocator, h], fun h => by simp [make_allocator, h], ?_⟩
  intro flags2 h
  simp only [make_allocator, h]

theorem make_allocator_heap_policy_witness :
    make_allocator ConsensusFlags.LIMIT_HEAP = Allocator.new_limited 500000000 ∧
    make_allocator ConsensusFlags.NO_UNKNOWN_CONDS = Allocator.new_limited U32_MAX ∧
    make_allocator (ConsensusFlags.LIMIT_HEAP ||| ConsensusFlags.NO_UNKNOWN_CONDS) =
      make_allocator ConsensusFlags.LIMIT_HEAP := by
  refine ⟨(make_allocator_heap_policy ConsensusFlags.LIMIT_HEAP).1 (by decide),
    (make_allocator_heap_policy ConsensusFlags.NO_UNKNOWN_CONDS).2.1 (by decide),
    (make_allocator_heap_policy _).2.2 _ (by decide)⟩

/-- Claim C9: `make_allocator` never returns a truly unbounded heap: for every
flag value it is built with `Allocator::new_limited` on a finite cap, namely
500,000,000 when `LIMIT_HEAP` is set and `u32::MAX` otherwise. -/
theorem make_allocator_always_bounded (flags : Nat) :
    ∃ cap : Nat, make_allocator flags = Allocator.new_limited cap ∧
      0 < cap ∧ cap ≤ U32_MAX ∧
      (cap = if containsBit flags ConsensusFlags.LIMIT_HEAP then 500000000 else U32_MAX) ∧
      (make_allocator flags).heapLimit = cap := by
  by_cases h : containsBit flags ConsensusFlags.LIMIT_HEAP = true
  · exact ⟨500000000, by simp [make_allocator, h], by norm_num, by decide,
      by simp [h], by simp [make_allocator, h, Allocator.new_limited]⟩
  · have h2 : containsBit flags ConsensusFlags.LIMIT_HEAP = false := by
      simpa using h
    exact ⟨U32_MAX, by simp [make_allocator, h2], by decide, le_refl _,
      by simp [h2], by simp [make_allocator, h2, Allocator.new_limited]⟩

/-! ### Lemmas about the generator model -/

theorem condListCost_append (a b : List Cond) :
    condListCost (a ++ b) = condListCost a + condListCost b := by
  induction a with
  | nil => simp [condListCost]
  | cons c cs ih => simp [condListCost, ih]; omega

theorem condListCost_allConds (ss : List Spend) :
    condListCost (allConds ss) = condCostTotal ss := by
  induction ss with
  | nil => simp [allConds, condListCost, condCostTotal]
  | cons s ss ih => simp [allConds, condCostTotal, condListCost_append, ih]

theorem allConds_all_valid (ss : List Spend) :
    (allConds ss).all (·.valid) = ss.all fun s => s.conds.all (·.valid) := by
  induction ss with
  | nil => simp [allConds]
  | cons s ss ih => simp [allConds, List.all_append, ih]

theorem all_clean_split (ss : List Spend) :
    ss.all Spend.clean =
      ((ss.all fun s => !s.evalFails) && (ss.all fun s => s.conds.all (·.valid))) := by
  induction ss with
  | nil => simp
  | cons s ss ih =>
    simp only [List.all_cons, Spend.clean, ih]
    cases s.evalFails <;> cases h2 : s.conds.all (·.valid) <;>
      cases h3 : ss.all (fun s => !s.evalFails) <;>
      cases h4 : ss.all (fun s => s.conds.all (·.valid)) <;> simp

theorem spendTotalV2_eq (ss : List Spend) :
    spendTotalV2 ss = evalCostTotal ss + condCostTotal ss := by
  induction ss with
  | nil => simp [spendTotalV2, evalCostTotal, condCostTotal]
  | cons s ss ih => simp [spendTotalV2, evalCostTotal, condCostTotal, ih]; omega

theorem parseConds_ok (maxCost : Nat) (cs : List Cond) :
    ∀ acc v, parseConds maxCost acc cs = .ok v →
      v = acc + condListCost cs ∧ cs.all (·.valid) = true ∧ (acc ≤ maxCost → v ≤ maxCost) := by
  induction cs with
  | nil =>
    intro acc v h
    simp [parseConds] at h
    simp [condListCost, ← h]
  | cons c cs ih =>
    intro acc v h
    by_cases h1 : maxCost < acc + c.cost
    · simp [parseConds, h1] at h
    · by_cases h2 : c.valid = true
      · simp only [parseConds, h1, if_false, h2, if_true] at h
        obtain ⟨hv, hall, hb⟩ := ih _ _ h
        refine ⟨by simp [condListCost]; omega, by simp [List.all_cons, h2, hall], ?_⟩
        intro _
        exact hb (by omega)
      · simp [parseConds, h1, h2] at h

theorem parseConds_complete (maxCost : Nat) (cs : List Cond) :
    ∀ acc, cs.all (·.valid) = true → acc + condListCost cs ≤ maxCost →
      parseConds maxCost acc cs = .ok (acc + condListCost cs) := by
  induction cs with
  | nil => intro acc _ _; simp [parseConds, condListCost]
  | cons c cs ih =>
    intro acc hall hle
    simp only [List.all_cons, Bool.and_eq_true] at hall
    simp only [condListCost] at hle
    have h1 : ¬ maxCost < acc + c.cost := by omega
    have h2 := ih (acc + c.cost) hall.2 (by omega)
    simp only [parseConds, h1, if_false, hall.1, if_true, h2, condListCost]
    congr 1
    omega

theorem parseConds_clean (maxCost : Nat) (cs : List Cond) :
    ∀ acc, cs.all (·.valid) = true →
      parseConds maxCost acc cs = .ok (acc + condListCost cs) ∨
      parseConds maxCost acc cs = .error .costExceeded := by
  induction cs with
  | nil => intro acc _; left; simp [parseConds, condListCost]
  | cons c cs ih =>
    intro acc hall
    simp only [List.all_cons, Bool.and_eq_true] at hall
    by_cases h1 : maxCost < acc + c.cost
    · right; simp [parseConds, h1]
    · rcases ih (acc + c.cost) hall.2 with h | h
      · left
        simp only [parseConds, h1, if_false, hall.1, if_true, h, condListCost]
        congr 1
        omega
      · right
        simp [parseConds, h1, hall.1, h]

theorem evalSpends_ok (maxCost : Nat) (ss : List Spend) :
    ∀ acc v, evalSpends maxCost acc ss = .ok v →
      v = acc + evalCostTotal ss ∧ (ss.all fun s => !s.evalFails) = true ∧
        (acc ≤ maxCost → v ≤ maxCost) := by
  induction ss with
  | nil =>
    intro acc v h
    simp [evalSpends] at h
    simp [evalCostTotal, ← h]
  | cons s ss ih =>
    intro acc v h
    by_cases h1 : maxCost < acc + s.evalCost
    · simp [evalSpends, h1] at h
    · by_cases h2 : s.evalFails = true
      · simp [evalSpends, h1, h2] at h
      · have h2f : s.evalFails = false := by simpa using h2
        simp only [evalSpends, h1, if_false, h2f, Bool.false_eq_true] at h
        obtain ⟨hv, hall, hb⟩ := ih _ _ h
        refine ⟨by simp [evalCostTotal]; omega, by simp [List.all_cons, h2f, hall], ?_⟩
        intro _
        exact hb (by omega)

theorem evalSpends_clean (maxCost : Nat) (ss : List Spend) :
    ∀ acc, (ss.all fun s => !s.evalFails) = true →
      evalSpends maxCost acc ss = .ok (acc + evalCostTotal ss) ∨
      evalSpends maxCost acc ss = .error .costExceeded := by
  induction ss with
  | nil => intro acc _; left; simp [evalSpends, evalCostTotal]
  | cons s ss ih =>
    intro acc hall
    simp only [List.all_cons, Bool.and_eq_true, Bool.not_eq_eq_eq_not, Bool.not_true] at hall
    by_cases h1 : maxCost < acc + s.evalCost
    · right; simp [evalSpends, h1]
    · rcases ih (acc + s.evalCost) (by simp [hall.2]) with h | h
      · left
        simp only [evalSpends, h1, if_false, hall.1, Bool.false_eq_true, if_false, h, evalCostTotal]
        congr 1
        omega
      · right
        simp [evalSpends, h1, hall.1, h]

theorem runSpendV2_ok (maxCost acc : Nat) (s : Spend) (v : Nat)
    (h : runSpendV2 maxCost acc s = .ok v) :
    v = acc + s.evalCost + condListCost s.conds ∧ Spend.clean s = true ∧
      (acc ≤ maxCost → v ≤ maxCost) := by
  by_cases h1 : maxCost < acc + s.evalCost
  · simp [runSpendV2, h1] at h
  · by_cases h2 : s.evalFails = true
    · simp [runSpendV2, h1, h2] at h
    · have h2f : s.evalFails = false := by simpa using h2
      simp only [runSpendV2, h1, if_false, h2f, Bool.false_eq_true] at h
      obtain ⟨hv, hall, hb⟩ := parseConds_ok maxCost s.conds _ _ h
      refine ⟨by omega, by simp [Spend.clean, h2f, hall], ?_⟩
      intro _
      exact hb (by omega)

theorem runSpendV2_clean (maxCost acc : Nat) (s : Spend) (hs : Spend.clean s = true) :
    runSpendV2 maxCost acc s = .ok (acc + s.evalCost + condListCost s.conds) ∨
    runSpendV2 maxCost acc s = .error .costExceeded := by
  simp only [Spend.clean, Bool.and_eq_true, Bool.not_eq_eq_eq_not, Bool.not_true] at hs
  by_cases h1 : maxCost < acc + s.evalCost
  · right; simp [runSpendV2, h1]
  · rcases parseConds_clean maxCost s.conds (acc + s.evalCost) hs.2 with h | h
    · left; simp [runSpendV2, h1, hs.1, h]
    · right; simp [runSpendV2, h1, hs.1, h]

theorem runSpendsV2_ok (maxCost : Nat) (ss : List Spend) :
    ∀ acc v, runSpendsV2 maxCost acc ss = .ok v →
      v = acc + spendTotalV2 ss ∧ ss.all Spend.clean = true ∧
        (acc ≤ maxCost → v ≤ maxCost) := by
  induction ss with
  | nil =>
    intro acc v h
    simp [runSpendsV2] at h
    simp [spendTotalV2, ← h]
  | cons s ss ih =>
    intro acc v h
    simp only [runSpendsV2] at h
    cases hr : runSpendV2 maxCost acc s with
    | error e => rw [hr] at h; simp at h
    | ok acc2 =>
      rw [hr] at h
      simp only at h
      obtain ⟨hv2, hclean, hb2⟩ := runSpendV2_ok maxCost acc s acc2 hr
      obtain ⟨hv, hall, hb⟩ := ih _ _ h
      refine ⟨by simp [spendTotalV2]; omega, by simp [List.all_cons, hclean, hall], ?_⟩
      intro hacc
      exact hb (hb2 hacc)

theorem runSpendV2_complete (maxCost acc : Nat) (s : Spend) (hs : Spend.clean s = true)
    (hle : acc + s.evalCost + condListCost s.conds ≤ maxCost) :
    runSpendV2 maxCost acc s = .ok (acc + s.evalCost + condListCost s.conds) := by
  simp only [Spend.clean, Bool.and_eq_true, Bool.not_eq_eq_eq_not, Bool.not_true] at hs
  have h1 : ¬ maxCost < acc + s.evalCost := by omega
  have h2 := parseConds_complete maxCost s.conds (acc + s.evalCost) hs.2 (by omega)
  simp [runSpendV2, h1, hs.1, h2]

theorem runSpendsV2_complete (maxCost : Nat) (ss : List Spend) :
    ∀ acc, ss.all Spend.clean = true → acc + spendTotalV2 ss ≤ maxCost →
      runSpendsV2 maxCost acc ss = .ok (acc + spendTotalV2 ss) := by
  induction ss with
  | nil => intro acc _ _; simp [runSpendsV2, spendTotalV2]
  | cons s ss ih =>
    intro acc hall hle
    simp only [List.all_cons, Bool.and_eq_true] at hall
    simp only [spendTotalV2] at hle
    have h := runSpendV2_complete maxCost acc s hall.1 (by omega)
    have h2 := ih (acc + s.evalCost + condListCost s.conds) hall.2 (by omega)
    simp only [runSpendsV2, h, h2, spendTotalV2]
    congr 1
    omega

theorem runSpendsV2_clean (maxCost : Nat) (ss : List Spend) :
    ∀ acc, ss.all Spend.clean = true →
      runSpendsV2 maxCost acc ss = .ok (acc + spendTotalV2 ss) ∨
      runSpendsV2 maxCost acc ss = .error .costExceeded := by
  induction ss with
  | nil => intro acc _; left; simp [runSpendsV2, spendTotalV2]
  | cons s ss ih =>
    intro acc hall
    simp only [List.all_cons, Bool.and_eq_true] at hall
    rcases runSpendV2_clean maxCost acc s hall.1 with h | h
    · rcases ih (acc + s.evalCost + condListCost s.conds) hall.2 with h2 | h2
      · left
        simp only [runSpendsV2, h, h2, spendTotalV2]
        congr 1
        omega
      · right
        simp [runSpendsV2, h, h2]
    · right
      simp [runSpendsV2, h]

theorem run_block_generator_ok (g : GeneratorInput) (maxCost : Nat) (r : SpendBundleConditions)
    (h : run_block_generator g maxCost = .ok r) :
    r = resultV1 g ∧ cleanGen g = true ∧
      execCostV1 g + condCostTotal g.spends ≤ maxCost := by
  unfold run_block_generator at h
  by_cases h0 : maxCost < g.romOverhead
  · simp [h0] at h
  · rw [if_neg h0] at h
    split at h
    · simp at h
    · next exec he =>
      split at h
      · simp at h
      · next t hp =>
        simp only [Except.ok.injEq] at h
        obtain ⟨he1, he2, he3⟩ := evalSpends_ok maxCost g.spends _ _ he
        obtain ⟨hp1, hp2, hp3⟩ := parseConds_ok maxCost _ _ _ hp
        refine ⟨h.symm, ?_, ?_⟩
        · rw [cleanGen, all_clean_split, Bool.and_eq_true]
          exact ⟨he2, by rw [← allConds_all_valid]; exact hp2⟩
        · have ht : t ≤ maxCost := hp3 (he3 (by omega))
          rw [condListCost_allConds] at hp1
          simp only [execCostV1]
          omega

theorem run_block_generator_clean_cases (g : GeneratorInput) (maxCost : Nat)
    (hclean : cleanGen g = true) :
    run_block_generator g maxCost = .ok (resultV1 g) ∨
    run_block_generator g maxCost = .error .costExceeded := by
  rw [cleanGen, all_clean_split, Bool.and_eq_true] at hclean
  unfold run_block_generator
  by_cases h0 : maxCost < g.romOverhead
  · right; simp [h0]
  · rw [if_neg h0]
    rcases evalSpends_clean maxCost g.spends g.romOverhead hclean.1 with he | he
    · rcases parseConds_clean maxCost (allConds g.spends) (g.romOverhead + evalCostTotal g.spends)
          (by rw [allConds_all_valid]; exact hclean.2) with hp | hp
      · left; simp only [he, hp]
      · right; simp only [he, hp]
    · right; simp only [he]

theorem run_block_generator2_ok (g : GeneratorInput) (maxCost : Nat) (r : SpendBundleConditions)
    (h : run_block_generator2 g maxCost = .ok r) :
    r = resultV2 g ∧ cleanGen g = true ∧
      execCostV2 g + condCostTotal g.spends ≤ maxCost := by
  unfold run_block_generator2 at h
  cases hr : runSpendsV2 maxCost 0 g.spends with
  | error e => rw [hr] at h; simp at h
  | ok v =>
    rw [hr] at h
    simp only [Except.ok.injEq] at h
    obtain ⟨hv, hall, hb⟩ := runSpendsV2_ok maxCost g.spends _ _ hr
    refine ⟨h.symm, hall, ?_⟩
    have := hb (Nat.zero_le _)
    rw [spendTotalV2_eq] at hv
    simp only [execCostV2]
    omega

theorem run_block_generator2_complete (g : GeneratorInput) (maxCost : Nat)
    (hclean : cleanGen g = true)
    (hle : execCostV2 g + condCostTotal g.spends ≤ maxCost) :
    run_block_generator2 g maxCost = .ok (resultV2 g) := by
  have h := runSpendsV2_complete maxCost g.spends 0 hclean
    (by rw [spendTotalV2_eq]; simpa [execCostV2] using hle)
  unfold run_block_generator2
  rw [h]

/-! ### Claims about the dual generator engines -/

/-- Claim C1: whenever both engine variants succeed on the same input, v1's
total cost and execution cost are each at least v2's, and the condition cost,
reserve-fee total, removal amount and addition amount agree exactly. -/
theorem generator_v1_dominates_v2 (g : GeneratorInput) (maxCost : Nat)
    (r1 r2 : SpendBundleConditions)
    (h1 : run_block_generator g maxCost = .ok r1)
    (h2 : run_block_generator2 g maxCost = .ok r2) :
    r2.cost ≤ r1.cost ∧ r2.execution_cost ≤ r1.execution_cost ∧
    r1.condition_cost = r2.condition_cost ∧ r1.reserve_fee = r2.reserve_fee ∧
    r1.removal_amount = r2.removal_amount ∧ r1.addition_amount = r2.addition_amount := by
  obtain ⟨hr1, -, -⟩ := run_block_generator_ok g maxCost r1 h1
  obtain ⟨hr2, -, -⟩ := run_block_generator2_ok g maxCost r2 h2
  subst hr1
  subst hr2
  refine ⟨?_, ?_, rfl, rfl, rfl, rfl⟩ <;>
    simp [resultV1, resultV2, execCostV1, execCostV2]

/-- A concrete generator on which both engines succeed. -/
def sampleGen : GeneratorInput :=
  { romOverhead := 10
    spends := [{ evalCost := 5, evalFails := false,
                 conds := [{ cost := 3, reserveFee := 1, removal := 2, addition := 2, valid := true }] }] }

theorem generator_v1_dominates_v2_witness :
    (resultV2 sampleGen).cost ≤ (resultV1 sampleGen).cost ∧
    (resultV2 sampleGen).execution_cost ≤ (resultV1 sampleGen).execution_cost ∧
    (resultV1 sampleGen).condition_cost = (resultV2 sampleGen).condition_cost ∧
    (resultV1 sampleGen).reserve_fee = (resultV2 sampleGen).reserve_fee ∧
    (resultV1 sampleGen).removal_amount = (resultV2 sampleGen).removal_amount ∧
    (resultV1 sampleGen).addition_amount = (resultV2 sampleGen).addition_amount :=
  generator_v1_dominates_v2 sampleGen 100 (resultV1 sampleGen) (resultV2 sampleGen)
    (by rfl) (by rfl)

/-- Claim C2: on every input, the two engine variants land in one of exactly
three outcome pairings: both succeed, both fail, or v1 fails with
`CostExceeded` while v2 succeeds.  In particular v1 never succeeds while v2
fails, and v1 never fails with a non-`CostExceeded` error while v2 succeeds. -/
theorem generator_variants_outcome_pairings (g : GeneratorInput) (maxCost : Nat) :
    (∃ r1 r2, run_block_generator g maxCost = .ok r1 ∧
      run_block_generator2 g maxCost = .ok r2) ∨
    (∃ e1 e2, run_block_generator g maxCost = .error e1 ∧
      run_block_generator2 g maxCost = .error e2) ∨
    (run_block_generator g maxCost = .error .costExceeded ∧
      ∃ r2, run_block_generator2 g maxCost = .ok r2) := by
  cases h1 : run_block_generator g maxCost with
  | ok r1 =>
    obtain ⟨-, hclean, hcost⟩ := run_block_generator_ok g maxCost r1 h1
    have hle : execCostV2 g + condCostTotal g.spends ≤ maxCost := by
      simp only [execCostV1, execCostV2] at hcost ⊢
      omega
    exact Or.inl ⟨r1, resultV2 g, rfl, run_block_generator2_complete g maxCost hclean hle⟩
  | error e1 =>
    cases h2 : run_block_generator2 g maxCost with
    | error e2 => exact Or.inr (Or.inl ⟨e1, e2, rfl, rfl⟩)
    | ok r2 =>
      obtain ⟨-, hclean, -⟩ := run_block_generator2_ok g maxCost r2 h2
      rcases run_block_generator_clean_cases g maxCost hclean with hok | hcost
      · rw [h1] at hok
        simp at hok
      · rw [h1] at hcost
        simp only [Except.error.injEq] at hcost
        subst hcost
        exact Or.inr (Or.inr ⟨rfl, r2, rfl⟩)

end ChiaConsensus
